import Mathlib

/-!
Shallow embedding of the `mottle` VS Code theme generator (Rust), covering the
data model and serialization paths exercised by the specification:
`src/proto.rs` (Theme, Color), `src/proto/textmate.rs` (scope rules),
`src/proto/semantic.rs` (semantic selectors and styles), `src/dsl.rs`
(ThemeBuilder and selector algebra), and `src/lib.rs` (`serialize_theme`).

JSON values are modelled by an inductive `Json` whose objects are ordered
association lists, matching serde's struct/map serialization where fields are
emitted in program order and never sorted.
-/

namespace Mottle

/-- JSON data model as produced by `serde_json` for this crate: strings,
booleans, arrays, and insertion-ordered objects. -/
inductive Json where
| str : String → Json
| bool : Bool → Json
| arr : List Json → Json
| obj : List (String × Json) → Json

/-- Uppercase hexadecimal digit, as used by Rust's `{:02X}` formatting. -/
def hexDigit (n : Nat) : Char :=
if n = 0 then '0' else if n = 1 then '1' else if n = 2 then '2'
else if n = 3 then '3' else if n = 4 then '4' else if n = 5 then '5'
else if n = 6 then '6' else if n = 7 then '7' else if n = 8 then '8'
else if n = 9 then '9' else if n = 10 then 'A' else if n = 11 then 'B'
else if n = 12 then 'C' else if n = 13 then 'D' else if n = 14 then 'E'
else 'F'

/-- Rust `format!("{:02X}", b)` for a byte `b < 256`: exactly two uppercase
hex digits. -/
def hex2 (n : Nat) : String :=
String.mk [hexDigit (n / 16), hexDigit (n % 16)]

/-- Value of an uppercase hex digit (inverse of `hexDigit`), `16` on
non-digits so that decoding can detect malformed input. -/
def hexDigitVal (c : Char) : Nat :=
if c = '0' then 0 else if c = '1' then 1 else if c = '2' then 2
else if c = '3' then 3 else if c = '4' then 4 else if c = '5' then 5
else if c = '6' then 6 else if c = '7' then 7 else if c = '8' then 8
else if c = '9' then 9 else if c = 'A' then 10 else if c = 'B' then 11
else if c = 'C' then 12 else if c = 'D' then 13 else if c = 'E' then 14
else if c = 'F' then 15 else 16

/-- `c` is an uppercase ASCII hex digit. -/
def isUpperHexDigit (c : Char) : Bool :=
decide (hexDigitVal c < 16)

/-- `proto::Color`: an RGBA byte quadruple (each component a `u8`, so `< 256`
at every construction site). -/
structure Color where
r : Nat
g : Nat
b : Nat
a : Nat
deriving DecidableEq, Repr

/-- `impl Serialize for Color` (src/proto.rs:28-42): renders `#RRGGBB` when
the alpha byte is `0xFF` and `#RRGGBBAA` otherwise, uppercase hex. -/
def Color.serialize (c : Color) : Json :=
if c.a = 0xFF then
  Json.str ("#" ++ hex2 c.r ++ hex2 c.g ++ hex2 c.b)
else
  Json.str ("#" ++ hex2 c.r ++ hex2 c.g ++ hex2 c.b ++ hex2 c.a)

namespace textmate

/-- `proto::textmate::FontStyle`. -/
inductive FontStyle where
| Inherit : FontStyle
| Set : Bool → Bool → Bool → FontStyle
deriving DecidableEq, Repr

/-- `proto::textmate::RuleSettings`. -/
structure RuleSettings where
foreground : Option Color
font_style : FontStyle
deriving DecidableEq, Repr

/-- `proto::textmate::Rule`. -/
structure Rule where
scope : List String
settings : RuleSettings
deriving DecidableEq, Repr

/-- The optional `foreground` field: emitted only when present, never as a
null placeholder. -/
def foregroundFields (fg : Option Color) : List (String × Json) :=
match fg with
| some c => [("foreground", Color.serialize c)]
| none => []

/-- The string-building loop of `RuleSettings::serialize`
(src/proto/textmate.rs:47-68): starting from the empty string, append
`italic`, then `bold`, then `underline` for each axis that is true, with a
space pushed before each word the string is nonempty. -/
def fontStyleString (bold italic underline : Bool) : String := Id.run do
let mut s := ""
if italic then
  if s ≠ "" then
    s := s ++ " "
  s := s ++ "italic"
if bold then
  if s ≠ "" then
    s := s ++ " "
  s := s ++ "bold"
if underline then
  if s ≠ "" then
    s := s ++ " "
  s := s ++ "underline"
return s

/-- `impl Serialize for RuleSettings` (src/proto/textmate.rs:24-76): in the
`Inherit` case only the optional foreground is emitted; in the `Set` case the
foreground is followed by a `fontStyle` field holding the joined string. -/
def RuleSettings.serialize (rs : RuleSettings) : Json :=
match rs.font_style with
| FontStyle.Inherit => Json.obj (foregroundFields rs.foreground)
| FontStyle.Set bold italic underline =>
    Json.obj (foregroundFields rs.foreground ++
      [("fontStyle", Json.str (fontStyleString bold italic underline))])

/-- Derived `Serialize` for `Rule` with `rename_all = "camelCase"`:
`scope` then `settings`, in declaration order. -/
def Rule.serialize (r : Rule) : Json :=
Json.obj [("scope", Json.arr (r.scope.map Json.str)),
          ("settings", RuleSettings.serialize r.settings)]

end textmate

namespace semantic

/-- `proto::semantic::Identifier`: a validated wrapper around text. -/
structure Identifier where
text : String
deriving DecidableEq, Repr

/-- `c.is_ascii_alphanumeric()` from Rust: ASCII letters and digits. -/
def isAsciiAlphanumeric (c : Char) : Bool :=
(decide ('A' ≤ c) && decide (c ≤ 'Z')) ||
(decide ('a' ≤ c) && decide (c ≤ 'z')) ||
(decide ('0' ≤ c) && decide (c ≤ '9'))

/-- The character loop of `Identifier::new` (src/proto/semantic.rs:130-142):
returns the error for the whole input string at the first character that is
neither ASCII alphanumeric nor a hyphen. -/
def checkIdentifierChars (s : String) : List Char → Except String Unit
| [] => Except.ok ()
| c :: rest =>
    if ¬isAsciiAlphanumeric c ∧ c ≠ '-' then
      Except.error ("invalid character in ‘" ++ s ++ "’")
    else
      checkIdentifierChars s rest

/-- `Identifier::new` (src/proto/semantic.rs:130-142): validates every
character, storing the input unchanged on success. -/
def Identifier.new (s : String) : Except String Identifier :=
match checkIdentifierChars s s.data with
| Except.ok _ => Except.ok ⟨s⟩
| Except.error e => Except.error e

/-- `proto::semantic::TokenKind`. -/
inductive TokenKind where
| Wildcard : TokenKind
| Specific : Identifier → TokenKind
deriving DecidableEq, Repr

/-- `proto::semantic::Selector`. -/
structure Selector where
kind : TokenKind
modifiers : List Identifier
language : Option Identifier
deriving DecidableEq, Repr

/-- `proto::semantic::FontStyleSetting`: the tri-state font axis. -/
inductive FontStyleSetting where
| True : FontStyleSetting
| False : FontStyleSetting
| Inherit : FontStyleSetting
deriving DecidableEq, Repr

/-- `proto::semantic::FontStyle`. -/
structure FontStyle where
bold : FontStyleSetting
italic : FontStyleSetting
underline : FontStyleSetting
deriving DecidableEq, Repr

/-- `proto::semantic::Style`. -/
structure Style where
foreground : Option Color
font_style : FontStyle
deriving DecidableEq, Repr

/-- `impl Serialize for Selector` (src/proto/semantic.rs:71-95): push the
kind (`*` for wildcard), then push `.` and the text of each modifier in
order, then an optional `:language` suffix. -/
def Selector.serialize (sel : Selector) : String :=
let s :=
  match sel.kind with
  | TokenKind.Wildcard => "*"
  | TokenKind.Specific k => k.text
let s := sel.modifiers.foldl (fun acc m => acc ++ "." ++ m.text) s
match sel.language with
| some l => s ++ ":" ++ l.text
| none => s

/-- One tri-state axis of `impl Serialize for Style`
(src/proto/semantic.rs:108-124): an explicit boolean field when `True` or
`False`, nothing when `Inherit`. -/
def axisFields (name : String) : FontStyleSetting → List (String × Json)
| FontStyleSetting.True => [(name, Json.bool true)]
| FontStyleSetting.False => [(name, Json.bool false)]
| FontStyleSetting.Inherit => []

/-- `impl Serialize for Style` (src/proto/semantic.rs:97-128): optional
foreground, then the `bold`, `italic`, `underline` axes in that order. -/
def Style.serialize (st : Style) : Json :=
Json.obj (textmate.foregroundFields st.foreground ++
  axisFields "bold" st.font_style.bold ++
  axisFields "italic" st.font_style.italic ++
  axisFields "underline" st.font_style.underline)

/-- `proto::semantic::Highlighting`: rules are an insertion-ordered map. -/
inductive Highlighting where
| Off : Highlighting
| On : List (Selector × Style) → Highlighting
deriving DecidableEq, Repr

/-- `impl Serialize for Highlighting` (src/proto/semantic.rs:49-68), seen
through `#[serde(flatten)]` in `Theme`: the fields this value contributes to
the top-level document object. -/
def Highlighting.fields : Highlighting → List (String × Json)
| Highlighting.Off => [("semanticHighlighting", Json.bool false)]
| Highlighting.On rules =>
    [("semanticHighlighting", Json.bool true),
     ("semanticTokenColors",
      Json.obj (rules.map (fun p => (Selector.serialize p.1, Style.serialize p.2))))]

end semantic

/-- `proto::Theme`. -/
structure Theme where
name : String
textmate_rules : List textmate.Rule
semantic_highlighting : semantic.Highlighting
workbench_rules : List (String × Color)
deriving DecidableEq, Repr

/-- Derived `Serialize` for `Theme` (src/proto.rs:8-18): `name`,
`tokenColors`, the flattened semantic-highlighting fields, then `colors`,
in declaration order. -/
def Theme.toJson (t : Theme) : Json :=
Json.obj ([("name", Json.str t.name),
           ("tokenColors", Json.arr (t.textmate_rules.map textmate.Rule.serialize))] ++
          semantic.Highlighting.fields t.semantic_highlighting ++
          [("colors",
            Json.obj (t.workbench_rules.map (fun p => (p.1, Color.serialize p.2))))])

/-! ## Text rendering (`serialize_theme`, src/lib.rs:21-27)

Models `serde_json::Serializer` with `PrettyFormatter::with_indent(b"    ")`:
four-space indentation, `": "` after keys, no trailing newline, and no text
before the document. -/

/-- Lowercase hexadecimal digit, as used by `serde_json` for `\u00XX`
escapes of control characters. -/
def lowerHexDigit (n : Nat) : Char :=
if n = 0 then '0' else if n = 1 then '1' else if n = 2 then '2'
else if n = 3 then '3' else if n = 4 then '4' else if n = 5 then '5'
else if n = 6 then '6' else if n = 7 then '7' else if n = 8 then '8'
else if n = 9 then '9' else if n = 10 then 'a' else if n = 11 then 'b'
else if n = 12 then 'c' else if n = 13 then 'd' else if n = 14 then 'e'
else 'f'

/-- `serde_json`'s escaping of a single character inside a JSON string. -/
def escapeChar (c : Char) : String :=
if c = '"' then "\\\""
else if c = '\\' then "\\\\"
else if c.toNat < 0x20 then
  if c = '\x08' then "\\b"
  else if c = '\t' then "\\t"
  else if c = '\n' then "\\n"
  else if c = '\x0c' then "\\f"
  else if c = '\r' then "\\r"
  else "\\u00" ++ String.mk [lowerHexDigit (c.toNat / 16), lowerHexDigit (c.toNat % 16)]
else String.singleton c

/-- A JSON string literal with `serde_json` escaping. -/
def escapeString (s : String) : String :=
"\"" ++ String.join (s.data.map escapeChar) ++ "\""

/-- `n` copies of the indentation unit. -/
def pad (indent : String) : Nat → String
| 0 => ""
| n + 1 => pad indent n ++ indent

mutual

/-- Pretty-printing of a JSON value at nesting level `lvl`, following
`serde_json::ser::PrettyFormatter`. -/
def renderJson (indent : String) (lvl : Nat) : Json → String
| Json.str s => escapeString s
| Json.bool b => if b then "true" else "false"
| Json.arr xs =>
    match xs with
    | [] => "[]"
    | x :: rest =>
        "[\n" ++ pad indent (lvl + 1) ++ renderJson indent (lvl + 1) x ++
        renderArrRest indent lvl rest ++ "\n" ++ pad indent lvl ++ "]"
| Json.obj fields =>
    match fields with
    | [] => "\x7b\x7d"
    | (k, v) :: rest =>
        "\x7b\n" ++ pad indent (lvl + 1) ++ escapeString k ++ ": " ++
        renderJson indent (lvl + 1) v ++
        renderObjRest indent lvl rest ++ "\n" ++ pad indent lvl ++ "\x7d"

/-- Remaining array elements, each preceded by a comma, newline and
indentation. -/
def renderArrRest (indent : String) (lvl : Nat) : List Json → String
| [] => ""
| x :: rest =>
    ",\n" ++ pad indent (lvl + 1) ++ renderJson indent (lvl + 1) x ++
    renderArrRest indent lvl rest

/-- Remaining object fields, each preceded by a comma, newline and
indentation. -/
def renderObjRest (indent : String) (lvl : Nat) : List (String × Json) → String
| [] => ""
| (k, v) :: rest =>
    ",\n" ++ pad indent (lvl + 1) ++ escapeString k ++ ": " ++
    renderJson indent (lvl + 1) v ++
    renderObjRest indent lvl rest

end

/-- `serialize_theme` (src/lib.rs:21-27): serde serialization of the theme
with a four-space pretty formatter, returned as a string. The output is
exactly the JSON document: nothing is prepended or appended. -/
def serialize_theme (t : Theme) : String :=
renderJson "    " 0 (Theme.toJson t)

/-! ## Insertion-ordered map (the `indexmap::IndexMap` dependency) -/

section IndexMapModel

variable {κ ν : Type} [DecidableEq κ]

/-- Key membership in an association list. -/
def containsKey : List (κ × ν) → κ → Bool
| [], _ => false
| (k0, _) :: rest, k => if k0 = k then true else containsKey rest k

/-- Replace the value stored at the first occurrence of `k`, keeping its
position and every other entry. -/
def replaceValue : List (κ × ν) → κ → ν → List (κ × ν)
| [], _, _ => []
| (k0, v0) :: rest, k, v =>
    if k0 = k then (k0, v) :: rest else (k0, v0) :: replaceValue rest k v

/-- Modelled from the `indexmap` crate's documented `IndexMap::insert`: when
the key is already present its value is updated in place and it keeps its
position in iteration order; otherwise the pair is appended at the end. -/
def indexMapInsert (m : List (κ × ν)) (k : κ) (v : ν) : List (κ × ν) :=
if containsKey m k then replaceValue m k v else m ++ [(k, v)]

/-- Lookup in an association list (first occurrence). -/
def indexMapGet : List (κ × ν) → κ → Option ν
| [], _ => none
| (k0, v0) :: rest, k => if k0 = k then some v0 else indexMapGet rest k

end IndexMapModel

/-! ## The builder DSL (src/dsl.rs) -/

namespace dsl

/-- `dsl::FontStyle`: one font-style effect per rule-addition call. -/
inductive FontStyle where
| Bold : FontStyle
| Italic : FontStyle
| Underline : FontStyle
deriving DecidableEq, Repr

/-- `dsl::Style`: the partial style contribution of one call. -/
structure Style where
foreground : Option Color
font_style : Option FontStyle
deriving DecidableEq, Repr

/-- `dsl::Selector`: a TextMate scope or a semantic selector. A
`SemanticOrTextMateSelectors` value is a list of these. -/
inductive Selector where
| TextMate : String → Selector
| Semantic : semantic.Selector → Selector
deriving DecidableEq, Repr

/-- `u32::to_be_bytes` on an RGBA word, packaged as a `proto::Color`. -/
def colorOfU32 (rgba : Nat) : Color :=
{ r := rgba % 4294967296 / 16777216,
  g := rgba % 16777216 / 65536,
  b := rgba % 65536 / 256,
  a := rgba % 256 }

/-- `impl From<u32> for Style` (src/dsl.rs:214-219): a bare color. -/
def Style.fromU32 (rgba : Nat) : Style :=
{ foreground := some (colorOfU32 rgba), font_style := none }

/-- `impl From<FontStyle> for Style` (src/dsl.rs:221-225): a bare font-style
effect. -/
def Style.fromFontStyle (fs : FontStyle) : Style :=
{ foreground := none, font_style := some fs }

/-- `impl From<(u32, FontStyle)> for Style` (src/dsl.rs:227-232): a combined
color and font-style effect. -/
def Style.fromU32FontStyle (rgba : Nat) (fs : FontStyle) : Style :=
{ foreground := some (colorOfU32 rgba), font_style := some fs }

/-- `style_to_textmate_rule_settings` (src/dsl.rs:68-85): a present
font-style effect sets exactly its own axis to true and the other two to
false; an absent one maps to `Inherit`. -/
def styleToTextmateRuleSettings (style : Style) : textmate.RuleSettings :=
{ foreground := style.foreground,
  font_style :=
    match style.font_style with
    | some FontStyle.Bold => textmate.FontStyle.Set true false false
    | some FontStyle.Italic => textmate.FontStyle.Set false true false
    | some FontStyle.Underline => textmate.FontStyle.Set false false true
    | none => textmate.FontStyle.Inherit }

/-- The semantic style built inside `ThemeBuilder::a` (src/dsl.rs:38-62):
all three axes start at `Inherit` and only the chosen axis is set to
`True`; an absent font-style effect leaves all three at `Inherit`. -/
def semanticStyleOfStyle (style : Style) : semantic.Style :=
{ foreground := style.foreground,
  font_style :=
    match style.font_style with
    | some FontStyle.Bold =>
        { bold := semantic.FontStyleSetting.True,
          italic := semantic.FontStyleSetting.Inherit,
          underline := semantic.FontStyleSetting.Inherit }
    | some FontStyle.Italic =>
        { bold := semantic.FontStyleSetting.Inherit,
          italic := semantic.FontStyleSetting.True,
          underline := semantic.FontStyleSetting.Inherit }
    | some FontStyle.Underline =>
        { bold := semantic.FontStyleSetting.Inherit,
          italic := semantic.FontStyleSetting.Inherit,
          underline := semantic.FontStyleSetting.True }
    | none =>
        { bold := semantic.FontStyleSetting.Inherit,
          italic := semantic.FontStyleSetting.Inherit,
          underline := semantic.FontStyleSetting.Inherit } }

/-- The partition loop of `ThemeBuilder::a` (src/dsl.rs:24-29), TextMate
part: scopes in call order. -/
def textmateScopes (sels : List Selector) : List String :=
sels.filterMap (fun s =>
  match s with
  | Selector.TextMate scope => some scope
  | Selector.Semantic _ => none)

/-- The partition loop of `ThemeBuilder::a` (src/dsl.rs:24-29), semantic
part: selectors in call order. -/
def semanticSelectors (sels : List Selector) : List semantic.Selector :=
sels.filterMap (fun s =>
  match s with
  | Selector.TextMate _ => none
  | Selector.Semantic sel => some sel)

/-- `dsl::ThemeBuilder`: the rule accumulator. -/
structure ThemeBuilder where
textmate_rules : List textmate.Rule
semantic_rules : List (semantic.Selector × semantic.Style)
workbench_rules : List (String × Color)
deriving DecidableEq, Repr

/-- `ThemeBuilder::default()`: everything empty. -/
def ThemeBuilder.default : ThemeBuilder :=
{ textmate_rules := [], semantic_rules := [], workbench_rules := [] }

/-- `ThemeBuilder::a` (src/dsl.rs:14-86): partition the selectors; when any
TextMate scope is present append one new scope rule; then insert the derived
semantic style for every semantic selector, in call order. -/
def ThemeBuilder.a (b : ThemeBuilder) (selectors : List Selector) (style : Style) :
    ThemeBuilder :=
let scopes := textmateScopes selectors
let sems := semanticSelectors selectors
let tmRules :=
  if scopes.isEmpty then b.textmate_rules
  else b.textmate_rules ++ [{ scope := scopes, settings := styleToTextmateRuleSettings style }]
{ textmate_rules := tmRules,
  semantic_rules :=
    sems.foldl (fun m sel => indexMapInsert m sel (semanticStyleOfStyle style)) b.semantic_rules,
  workbench_rules := b.workbench_rules }

/-- `ThemeBuilder::w` (src/dsl.rs:88-94): split the RGBA word into bytes and
insert the color for every given workbench key, in order. -/
def ThemeBuilder.w (b : ThemeBuilder) (selector : List String) (color : Nat) : ThemeBuilder :=
{ b with
  workbench_rules :=
    selector.foldl (fun m s => indexMapInsert m s (colorOfU32 color)) b.workbench_rules }

/-- `ThemeBuilder::build` (src/dsl.rs:96-103): semantic highlighting is
unconditionally `On` with the accumulated rules. -/
def ThemeBuilder.build (b : ThemeBuilder) (name : String) : Theme :=
{ name := name,
  textmate_rules := b.textmate_rules,
  semantic_highlighting := semantic.Highlighting.On b.semantic_rules,
  workbench_rules := b.workbench_rules }

/-- `dsl::tm` (src/dsl.rs:106-108): a singleton TextMate selector set. -/
def tm (scope : String) : List Selector :=
[Selector.TextMate scope]

/-- `impl BitOr for SemanticOrTextMateSelectors` (src/dsl.rs:154-161):
order-preserving concatenation. -/
def bitor (a b : List Selector) : List Selector :=
a ++ b

/-- `impl Shr<&str> for SemanticOrTextMateSelectors` (src/dsl.rs:163-178):
append the modifier to every semantic selector in order; the panics (both
the `unwrap` on an invalid identifier and the TextMate misuse panic) are
modelled as `Except.error`. -/
def shr : List Selector → String → Except String (List Selector)
| [], _ => Except.ok []
| Selector.Semantic sem :: rest, rhs =>
    match semantic.Identifier.new rhs with
    | Except.ok ident =>
        match shr rest rhs with
        | Except.ok rest2 =>
            Except.ok (Selector.Semantic
              { sem with modifiers := sem.modifiers ++ [ident] } :: rest2)
        | Except.error e => Except.error e
    | Except.error e => Except.error e
| Selector.TextMate _ :: _, _ =>
    Except.error "cannot add a modifier to TextMate selector"

/-- `impl BitXor<&str> for SemanticOrTextMateSelectors` (src/dsl.rs:180-195):
set the language of every semantic selector (last write wins); panics are
modelled as `Except.error` exactly as in `shr`. -/
def bitxor : List Selector → String → Except String (List Selector)
| [], _ => Except.ok []
| Selector.Semantic sem :: rest, rhs =>
    match semantic.Identifier.new rhs with
    | Except.ok ident =>
        match bitxor rest rhs with
        | Except.ok rest2 =>
            Except.ok (Selector.Semantic { sem with language := some ident } :: rest2)
        | Except.error e => Except.error e
    | Except.error e => Except.error e
| Selector.TextMate _ :: _, _ =>
    Except.error "cannot add set language of TextMate selector"

end dsl

/-! ## Specification-side definitions

These follow the spec's wording and are used to state refinement claims
against the code-derived definitions above. -/

/-- Decoding of the canonical hex color text described by the spec: `#`
followed by two uppercase hex digits per channel, with the alpha pair
optional (defaulting to `0xFF` when elided). -/
def decodeColor (s : String) : Option Color :=
match s.data with
| '#' :: r1 :: r2 :: g1 :: g2 :: b1 :: b2 :: rest =>
    if isUpperHexDigit r1 ∧ isUpperHexDigit r2 ∧ isUpperHexDigit g1 ∧
       isUpperHexDigit g2 ∧ isUpperHexDigit b1 ∧ isUpperHexDigit b2 then
      let r := hexDigitVal r1 * 16 + hexDigitVal r2
      let g := hexDigitVal g1 * 16 + hexDigitVal g2
      let b := hexDigitVal b1 * 16 + hexDigitVal b2
      match rest with
      | [] => some { r := r, g := g, b := b, a := 0xFF }
      | [a1, a2] =>
          if isUpperHexDigit a1 ∧ isUpperHexDigit a2 then
            some { r := r, g := g, b := b, a := hexDigitVal a1 * 16 + hexDigitVal a2 }
          else none
      | _ => none
    else none
| _ => none

/-- The spec's canonical selector encoding: the kind and the modifiers
joined with `.`, then an optional `:language` suffix. -/
def canonicalSelectorString (sel : semantic.Selector) : String :=
String.intercalate "."
  ((match sel.kind with
    | semantic.TokenKind.Wildcard => "*"
    | semantic.TokenKind.Specific k => k.text) ::
   sel.modifiers.map semantic.Identifier.text) ++
(match sel.language with
 | some l => ":" ++ l.text
 | none => "")

/-! ## Helper lemmas -/

set_option maxHeartbeats 1000000 in
set_option maxRecDepth 4096 in
theorem hexPair_facts : ∀ n < 256,
    isUpperHexDigit (hexDigit (n / 16)) = true ∧
    isUpperHexDigit (hexDigit (n % 16)) = true ∧
    hexDigitVal (hexDigit (n / 16)) * 16 + hexDigitVal (hexDigit (n % 16)) = n := by
decide

theorem foldl_dot_eq_intercalate_go (l : List String) (acc : String) :
    List.foldl (fun a m => a ++ "." ++ m) acc l = String.intercalate.go acc "." l := by
induction l generalizing acc with
| nil => rfl
| cons b bs ih => simp [String.intercalate.go, List.foldl_cons, ih]

section IndexMapLemmas

variable {κ ν : Type} [DecidableEq κ]

theorem indexMapGet_append_of_not_contains (m l : List (κ × ν)) (k : κ)
    (h : containsKey m k = false) : indexMapGet (m ++ l) k = indexMapGet l k := by
induction m with
| nil => rfl
| cons p rest ih =>
    obtain ⟨k0, v0⟩ := p
    by_cases hk : k0 = k
    · simp [containsKey, hk] at h
    · simp only [List.cons_append, indexMapGet, if_neg hk]
      exact ih (by simpa [containsKey, hk] using h)

theorem indexMapGet_replaceValue_self (m : List (κ × ν)) (k : κ) (v : ν)
    (h : containsKey m k = true) : indexMapGet (replaceValue m k v) k = some v := by
induction m with
| nil => simp [containsKey] at h
| cons p rest ih =>
    obtain ⟨k0, v0⟩ := p
    by_cases hk : k0 = k
    · simp [replaceValue, indexMapGet, hk]
    · simp only [replaceValue, if_neg hk, indexMapGet]
      exact ih (by simpa [containsKey, hk] using h)

theorem indexMapGet_replaceValue_ne (m : List (κ × ν)) (k k1 : κ) (v : ν)
    (h : k1 ≠ k) : indexMapGet (replaceValue m k1 v) k = indexMapGet m k := by
induction m with
| nil => rfl
| cons p rest ih =>
    obtain ⟨k0, v0⟩ := p
    by_cases hk : k0 = k1
    · subst hk
      simp [replaceValue, indexMapGet, if_neg h]
    · simp only [replaceValue, if_neg hk, indexMapGet, ih]

theorem indexMapGet_insert_self (m : List (κ × ν)) (k : κ) (v : ν) :
    indexMapGet (indexMapInsert m k v) k = some v := by
unfold indexMapInsert
by_cases h : containsKey m k = true
· rw [if_pos h]
  exact indexMapGet_replaceValue_self m k v h
· rw [if_neg h]
  rw [indexMapGet_append_of_not_contains m _ k (Bool.eq_false_iff.mpr h)]
  simp [indexMapGet]

theorem indexMapGet_insert_ne (m : List (κ × ν)) (k k1 : κ) (v : ν) (h : k1 ≠ k) :
    indexMapGet (indexMapInsert m k1 v) k = indexMapGet m k := by
unfold indexMapInsert
by_cases hc : containsKey m k1 = true
· rw [if_pos hc]
  exact indexMapGet_replaceValue_ne m k k1 v h
· rw [if_neg hc]
  induction m with
  | nil => simp [indexMapGet, if_neg h]
  | cons p rest ih =>
      obtain ⟨k0, v0⟩ := p
      by_cases hk : k0 = k
      · simp [indexMapGet, hk]
      · simp only [List.cons_append, indexMapGet, if_neg hk]
        exact ih (by intro hcc; exact hc (by simp [containsKey]; right; exact hcc))

theorem indexMapGet_foldl_insert_preserve (L : List κ) (m : List (κ × ν)) (k : κ) (v : ν)
    (h : indexMapGet m k = some v) :
    indexMapGet (L.foldl (fun acc s => indexMapInsert acc s v) m) k = some v := by
induction L generalizing m with
| nil => exact h
| cons s rest ih =>
    simp only [List.foldl_cons]
    by_cases hs : s = k
    · exact ih _ (by rw [hs, indexMapGet_insert_self])
    · exact ih _ (by rw [indexMapGet_insert_ne m k s v hs]; exact h)

theorem indexMapGet_foldl_insert_mem (L : List κ) (m : List (κ × ν)) (k : κ) (v : ν)
    (h : k ∈ L) :
    indexMapGet (L.foldl (fun acc s => indexMapInsert acc s v) m) k = some v := by
induction L generalizing m with
| nil => cases h
| cons s rest ih =>
    simp only [List.foldl_cons]
    by_cases hs : k ∈ rest
    · exact ih _ hs
    · have hsk : s = k := by
        rcases List.mem_cons.mp h with h1 | h2
        · exact h1.symm
        · exact absurd h2 hs
      subst hsk
      exact indexMapGet_foldl_insert_preserve rest _ s v (indexMapGet_insert_self m s v)

theorem containsKey_iff_mem (m : List (κ × ν)) (k : κ) :
    containsKey m k = true ↔ k ∈ m.map Prod.fst := by
induction m with
| nil => simp [containsKey]
| cons p rest ih =>
    obtain ⟨k0, v0⟩ := p
    by_cases hk : k0 = k
    · subst hk
      simp [containsKey]
    · simp [containsKey, hk, ih, Ne.symm hk]

theorem keys_replaceValue (m : List (κ × ν)) (k : κ) (v : ν) :
    (replaceValue m k v).map Prod.fst = m.map Prod.fst := by
induction m with
| nil => rfl
| cons p rest ih =>
    obtain ⟨k0, v0⟩ := p
    by_cases hk : k0 = k <;> simp [replaceValue, hk, ih]

theorem filter_key_of_not_contains (m : List (κ × ν)) (k : κ)
    (h : containsKey m k = false) :
    m.filter (fun p => decide (p.1 = k)) = [] := by
induction m with
| nil => rfl
| cons p rest ih =>
    obtain ⟨k0, v0⟩ := p
    by_cases hk : k0 = k
    · simp [containsKey, hk] at h
    · simp only [List.filter_cons, decide_eq_true_eq, if_neg hk]
      exact ih (by simpa [containsKey, hk] using h)

theorem filter_key_replaceValue (m : List (κ × ν)) (k : κ) (v : ν)
    (hnodup : (m.map Prod.fst).Nodup) (h : containsKey m k = true) :
    (replaceValue m k v).filter (fun p => decide (p.1 = k)) = [(k, v)] := by
induction m with
| nil => simp [containsKey] at h
| cons p rest ih =>
    obtain ⟨k0, v0⟩ := p
    simp only [List.map_cons, List.nodup_cons] at hnodup
    by_cases hk : k0 = k
    · subst hk
      have h1 : replaceValue ((k0, v0) :: rest) k0 v = (k0, v) :: rest := by
        simp [replaceValue]
      have h2 : containsKey rest k0 = false := by
        rw [Bool.eq_false_iff]
        intro hcc
        exact hnodup.1 ((containsKey_iff_mem rest k0).mp hcc)
      rw [h1]
      simp only [List.filter_cons, decide_eq_true_eq, if_pos rfl]
      rw [filter_key_of_not_contains rest k0 h2]
      simp
    · simp only [replaceValue, if_neg hk, List.filter_cons, decide_eq_true_eq, if_neg hk]
      exact ih hnodup.2 (by simpa [containsKey, hk] using h)

theorem filter_key_insert (m : List (κ × ν)) (k : κ) (v : ν)
    (hnodup : (m.map Prod.fst).Nodup) :
    (indexMapInsert m k v).filter (fun p => decide (p.1 = k)) = [(k, v)] := by
unfold indexMapInsert
by_cases h : containsKey m k = true
· rw [if_pos h]
  exact filter_key_replaceValue m k v hnodup h
· rw [if_neg h]
  rw [List.filter_append]
  rw [filter_key_of_not_contains m k (Bool.eq_false_iff.mpr h)]
  simp

theorem nodup_keys_insert (m : List (κ × ν)) (k : κ) (v : ν)
    (hnodup : (m.map Prod.fst).Nodup) :
    ((indexMapInsert m k v).map Prod.fst).Nodup := by
unfold indexMapInsert
by_cases h : containsKey m k = true
· rw [if_pos h, keys_replaceValue]
  exact hnodup
· rw [if_neg h]
  rw [List.map_append]
  simp only [List.map_cons, List.map_nil]
  rw [List.nodup_append]
  refine ⟨hnodup, List.nodup_singleton k, ?_⟩
  intro x hx hxk
  rw [List.mem_singleton] at hxk
  subst hxk
  exact h ((containsKey_iff_mem m x).mpr hx)

theorem replaceValue_split (m : List (κ × ν)) (k : κ) (v : ν)
    (h : containsKey m k = true) :
    ∃ pre v0 post, m = pre ++ (k, v0) :: post ∧ containsKey pre k = false ∧
      replaceValue m k v = pre ++ (k, v) :: post := by
induction m with
| nil => simp [containsKey] at h
| cons p rest ih =>
    obtain ⟨k0, v0⟩ := p
    by_cases hk : k0 = k
    · subst hk
      exact ⟨[], v0, rest, rfl, rfl, by simp [replaceValue]⟩
    · have h2 : containsKey rest k = true := by simpa [containsKey, hk] using h
      obtain ⟨pre, w0, post, hm, hpre, hrep⟩ := ih h2
      refine ⟨(k0, v0) :: pre, w0, post, by rw [hm]; rfl, ?_, ?_⟩
      · simp [containsKey, hk, hpre]
      · simp only [replaceValue, if_neg hk, hrep]
        rfl

end IndexMapLemmas

theorem checkIdentifierChars_spec (s : String) (l : List Char) :
    semantic.checkIdentifierChars s l =
      (if ∀ c ∈ l, (semantic.isAsciiAlphanumeric c || c == '-') = true
       then Except.ok ()
       else Except.error ("invalid character in ‘" ++ s ++ "’")) := by
induction l with
| nil => simp [semantic.checkIdentifierChars]
| cons c rest ih =>
    rw [semantic.checkIdentifierChars, ih]
    simp only [List.forall_mem_cons]
    by_cases hA : semantic.isAsciiAlphanumeric c = true
    · by_cases hB : c = '-' <;> simp [hA, hB]
    · by_cases hB : c = '-' <;> simp [hA, hB]

theorem decodeColor_hex6 (d1 d2 d3 d4 d5 d6 : Char)
    (h : isUpperHexDigit d1 = true ∧ isUpperHexDigit d2 = true ∧ isUpperHexDigit d3 = true ∧
         isUpperHexDigit d4 = true ∧ isUpperHexDigit d5 = true ∧ isUpperHexDigit d6 = true) :
    decodeColor (String.mk ['#', d1, d2, d3, d4, d5, d6])
      = some { r := hexDigitVal d1 * 16 + hexDigitVal d2,
               g := hexDigitVal d3 * 16 + hexDigitVal d4,
               b := hexDigitVal d5 * 16 + hexDigitVal d6, a := 0xFF } := by
have e : decodeColor (String.mk ['#', d1, d2, d3, d4, d5, d6])
    = (if isUpperHexDigit d1 = true ∧ isUpperHexDigit d2 = true ∧ isUpperHexDigit d3 = true ∧
          isUpperHexDigit d4 = true ∧ isUpperHexDigit d5 = true ∧ isUpperHexDigit d6 = true
       then some { r := hexDigitVal d1 * 16 + hexDigitVal d2,
                   g := hexDigitVal d3 * 16 + hexDigitVal d4,
                   b := hexDigitVal d5 * 16 + hexDigitVal d6, a := 0xFF }
       else none) := rfl
rw [e, if_pos h]

theorem decodeColor_hex8 (d1 d2 d3 d4 d5 d6 d7 d8 : Char)
    (h : isUpperHexDigit d1 = true ∧ isUpperHexDigit d2 = true ∧ isUpperHexDigit d3 = true ∧
         isUpperHexDigit d4 = true ∧ isUpperHexDigit d5 = true ∧ isUpperHexDigit d6 = true)
    (ha : isUpperHexDigit d7 = true ∧ isUpperHexDigit d8 = true) :
    decodeColor (String.mk ['#', d1, d2, d3, d4, d5, d6, d7, d8])
      = some { r := hexDigitVal d1 * 16 + hexDigitVal d2,
               g := hexDigitVal d3 * 16 + hexDigitVal d4,
               b := hexDigitVal d5 * 16 + hexDigitVal d6,
               a := hexDigitVal d7 * 16 + hexDigitVal d8 } := by
have e : decodeColor (String.mk ['#', d1, d2, d3, d4, d5, d6, d7, d8])
    = (if isUpperHexDigit d1 = true ∧ isUpperHexDigit d2 = true ∧ isUpperHexDigit d3 = true ∧
          isUpperHexDigit d4 = true ∧ isUpperHexDigit d5 = true ∧ isUpperHexDigit d6 = true
       then (if isUpperHexDigit d7 = true ∧ isUpperHexDigit d8 = true
             then some { r := hexDigitVal d1 * 16 + hexDigitVal d2,
                         g := hexDigitVal d3 * 16 + hexDigitVal d4,
                         b := hexDigitVal d5 * 16 + hexDigitVal d6,
                         a := hexDigitVal d7 * 16 + hexDigitVal d8 }
             else none)
       else none) := rfl
rw [e, if_pos h, if_pos ha]

/-! ## Claims -/

/-- C1 counterexample: the color `0xF92672FF` (alpha `0xFF`) serializes to
the six-digit string `"#F92672"`, not to `"#F92672FF"` as the claim
states. -/
theorem c1_counterexample :
    Color.serialize { r := 0xF9, g := 0x26, b := 0x72, a := 0xFF } = Json.str "#F92672" ∧
    ("#F92672" : String) ≠ "#F92672FF" := by
exact ⟨rfl, by decide⟩

/-- C1 (amended): color serialization renders an uppercase-hex string that
is the 6-digit `#RRGGBB` form when alpha is `0xFF` and the 8-digit
`#RRGGBBAA` form otherwise, losslessly (decoding the string with alpha
defaulting to `0xFF` recovers the color); the example theme with scopes
`keyword.operator`, `punctuation` and color `0xF92672FF` yields exactly one
`tokenColors` entry whose scope order is preserved and whose foreground is
`"#F92672"`. -/
theorem c1_color_serialization (c : Color) (hr : c.r < 256) (hg : c.g < 256)
    (hb : c.b < 256) (ha : c.a < 256) :
    (∃ s : String,
      Color.serialize c = Json.str s ∧
      s.length = (if c.a = 0xFF then 7 else 9) ∧
      s.data.head? = some '#' ∧
      (∀ ch ∈ s.data.tail, isUpperHexDigit ch = true) ∧
      decodeColor s = some c) ∧
    Theme.toJson ((dsl.ThemeBuilder.a dsl.ThemeBuilder.default
        (dsl.bitor (dsl.tm "keyword.operator") (dsl.tm "punctuation"))
        (dsl.Style.fromU32 0xF92672FF)).build "My cool theme")
      = Json.obj [("name", Json.str "My cool theme"),
          ("tokenColors", Json.arr [Json.obj
            [("scope", Json.arr [Json.str "keyword.operator", Json.str "punctuation"]),
             ("settings", Json.obj [("foreground", Json.str "#F92672")])]]),
          ("semanticHighlighting", Json.bool true),
          ("semanticTokenColors", Json.obj []),
          ("colors", Json.obj [])] := by
refine ⟨?_, rfl⟩
obtain ⟨r, g, b, a⟩ := c
obtain ⟨hu1, hu2, hval_r⟩ := hexPair_facts r hr
obtain ⟨hu3, hu4, hval_g⟩ := hexPair_facts g hg
obtain ⟨hu5, hu6, hval_b⟩ := hexPair_facts b hb
obtain ⟨hu7, hu8, hval_a⟩ := hexPair_facts a ha
by_cases h255 : a = 0xFF
· refine ⟨String.mk ['#', hexDigit (r / 16), hexDigit (r % 16), hexDigit (g / 16),
      hexDigit (g % 16), hexDigit (b / 16), hexDigit (b % 16)], ?_, ?_, rfl, ?_, ?_⟩
  · show (if a = 0xFF then Json.str ("#" ++ hex2 r ++ hex2 g ++ hex2 b)
          else Json.str ("#" ++ hex2 r ++ hex2 g ++ hex2 b ++ hex2 a)) = _
    rw [if_pos h255]
    rfl
  · show _ = (if a = 0xFF then 7 else 9)
    rw [if_pos h255]
    rfl
  · intro ch hch
    fin_cases hch <;> assumption
  · rw [decodeColor_hex6 _ _ _ _ _ _ ⟨hu1, hu2, hu3, hu4, hu5, hu6⟩,
        hval_r, hval_g, hval_b, h255]
· refine ⟨String.mk ['#', hexDigit (r / 16), hexDigit (r % 16), hexDigit (g / 16),
      hexDigit (g % 16), hexDigit (b / 16), hexDigit (b % 16), hexDigit (a / 16),
      hexDigit (a % 16)], ?_, ?_, rfl, ?_, ?_⟩
  · show (if a = 0xFF then Json.str ("#" ++ hex2 r ++ hex2 g ++ hex2 b)
          else Json.str ("#" ++ hex2 r ++ hex2 g ++ hex2 b ++ hex2 a)) = _
    rw [if_neg h255]
    rfl
  · show _ = (if a = 0xFF then 7 else 9)
    rw [if_neg h255]
    rfl
  · intro ch hch
    fin_cases hch <;> assumption
  · rw [decodeColor_hex8 _ _ _ _ _ _ _ _ ⟨hu1, hu2, hu3, hu4, hu5, hu6⟩ ⟨hu7, hu8⟩,
        hval_r, hval_g, hval_b, hval_a]

/-- C1 witness: the amended statement applied to the color
`(0x12, 0x34, 0x56, 0x78)`, whose alpha is not `0xFF`. -/
theorem c1_color_serialization_witness :
    ∃ s : String,
      Color.serialize { r := 0x12, g := 0x34, b := 0x56, a := 0x78 } = Json.str s ∧
      s.length = (if (0x78 : Nat) = 0xFF then 7 else 9) ∧
      s.data.head? = some '#' ∧
      (∀ ch ∈ s.data.tail, isUpperHexDigit ch = true) ∧
      decodeColor s = some { r := 0x12, g := 0x34, b := 0x56, a := 0x78 } :=
(c1_color_serialization { r := 0x12, g := 0x34, b := 0x56, a := 0x78 }
  (by decide) (by decide) (by decide) (by decide)).1

/-- C4 (code bug): `serialize_theme` emits the bare JSON document, with no
machine-generated comment line at the start, although the crate's own
expect-tests in src/proto.rs require every serialized theme to begin with
`// Do not edit directly; this file is generated.`. -/
theorem c4_missing_generated_comment :
    serialize_theme { name := "My cool theme", textmate_rules := [],
                      semantic_highlighting := semantic.Highlighting.Off,
                      workbench_rules := [] }
      = "\x7b\n    \"name\": \"My cool theme\",\n    \"tokenColors\": [],\n    \"semanticHighlighting\": false,\n    \"colors\": \x7b\x7d\n\x7d" ∧
    (serialize_theme { name := "My cool theme", textmate_rules := [],
                       semantic_highlighting := semantic.Highlighting.Off,
                       workbench_rules := [] }).data.take 2 ≠ ['/', '/'] := by
exact ⟨rfl, by decide⟩

/-- C7: two rule-addition calls targeting the identical full semantic
selector overwrite: the map retains exactly one entry for that key holding
the second style, and the serialized document of the two-call builder
contains only the second style for that selector. -/
theorem c7_full_overwrite (b : dsl.ThemeBuilder) (sel : semantic.Selector)
    (st1 st2 : dsl.Style) (name : String)
    (hnodup : (b.semantic_rules.map Prod.fst).Nodup) :
    (((b.a [dsl.Selector.Semantic sel] st1).a
        [dsl.Selector.Semantic sel] st2).semantic_rules.filter
        (fun p => decide (p.1 = sel)))
      = [(sel, dsl.semanticStyleOfStyle st2)] ∧
    Theme.toJson (((dsl.ThemeBuilder.default.a [dsl.Selector.Semantic sel] st1).a
        [dsl.Selector.Semantic sel] st2).build name)
      = Json.obj [("name", Json.str name),
          ("tokenColors", Json.arr []),
          ("semanticHighlighting", Json.bool true),
          ("semanticTokenColors", Json.obj [(semantic.Selector.serialize sel,
              semantic.Style.serialize (dsl.semanticStyleOfStyle st2))]),
          ("colors", Json.obj [])] := by
constructor
· show ((indexMapInsert (indexMapInsert b.semantic_rules sel (dsl.semanticStyleOfStyle st1)) sel
      (dsl.semanticStyleOfStyle st2)).filter (fun p => decide (p.1 = sel)))
      = [(sel, dsl.semanticStyleOfStyle st2)]
  exact filter_key_insert _ sel _ (nodup_keys_insert _ sel _ hnodup)
· have e4 : ((dsl.ThemeBuilder.default.a [dsl.Selector.Semantic sel] st1).a
      [dsl.Selector.Semantic sel] st2).semantic_rules
      = [(sel, dsl.semanticStyleOfStyle st2)] := by
    show indexMapInsert (indexMapInsert [] sel (dsl.semanticStyleOfStyle st1)) sel
        (dsl.semanticStyleOfStyle st2) = [(sel, dsl.semanticStyleOfStyle st2)]
    simp [indexMapInsert, containsKey, replaceValue]
  have e5 : (((dsl.ThemeBuilder.default.a [dsl.Selector.Semantic sel] st1).a
      [dsl.Selector.Semantic sel] st2).build name)
      = { name := name, textmate_rules := [],
          semantic_highlighting :=
            semantic.Highlighting.On [(sel, dsl.semanticStyleOfStyle st2)],
          workbench_rules := [] } := by
    unfold dsl.ThemeBuilder.build
    rw [e4]
    rfl
  rw [e5]
  rfl

/-- C7 witness: overwrite observed on a concrete pair of calls. -/
theorem c7_full_overwrite_witness :
    (((dsl.ThemeBuilder.default.a
        [dsl.Selector.Semantic { kind := semantic.TokenKind.Wildcard,
                                 modifiers := [], language := none }]
        (dsl.Style.fromU32 0xFF0000FF)).a
        [dsl.Selector.Semantic { kind := semantic.TokenKind.Wildcard,
                                 modifiers := [], language := none }]
        (dsl.Style.fromFontStyle dsl.FontStyle.Italic)).semantic_rules.filter
        (fun p => decide (p.1 = ({ kind := semantic.TokenKind.Wildcard,
                                   modifiers := [], language := none } : semantic.Selector))))
      = [({ kind := semantic.TokenKind.Wildcard, modifiers := [], language := none },
          dsl.semanticStyleOfStyle (dsl.Style.fromFontStyle dsl.FontStyle.Italic))] :=
(c7_full_overwrite dsl.ThemeBuilder.default
  { kind := semantic.TokenKind.Wildcard, modifiers := [], language := none }
  (dsl.Style.fromU32 0xFF0000FF) (dsl.Style.fromFontStyle dsl.FontStyle.Italic)
  "My cool theme" (by decide)).1

/-- C8: re-inserting an already-present workbench key changes only that
key's value: the key keeps its first-insertion position and every other
entry, in order, is unchanged. -/
theorem c8_workbench_reinsert (b : dsl.ThemeBuilder) (k : String) (rgba : Nat)
    (hk : containsKey b.workbench_rules k = true) :
    ∃ pre v0 post,
      b.workbench_rules = pre ++ (k, v0) :: post ∧
      containsKey pre k = false ∧
      (dsl.ThemeBuilder.w b [k] rgba).workbench_rules
        = pre ++ (k, dsl.colorOfU32 rgba) :: post := by
obtain ⟨pre, v0, post, hm, hpre, hrep⟩ :=
  replaceValue_split b.workbench_rules k (dsl.colorOfU32 rgba) hk
refine ⟨pre, v0, post, hm, hpre, ?_⟩
show indexMapInsert b.workbench_rules k (dsl.colorOfU32 rgba) = _
unfold indexMapInsert
rw [if_pos hk, hrep]

/-- C8 witness: updating `editor.foreground` in a two-entry workbench map
keeps it in second position with the new color. -/
theorem c8_workbench_reinsert_witness :
    ∃ pre v0 post,
      ([("editor.background", { r := 0, g := 0, b := 0, a := 255 }),
        ("editor.foreground", { r := 255, g := 0, b := 0, a := 255 })] : List (String × Color))
        = pre ++ ("editor.foreground", v0) :: post ∧
      containsKey pre "editor.foreground" = false ∧
      (dsl.ThemeBuilder.w
          { textmate_rules := [], semantic_rules := [],
            workbench_rules := [("editor.background", { r := 0, g := 0, b := 0, a := 255 }),
                                ("editor.foreground", { r := 255, g := 0, b := 0, a := 255 })] }
          ["editor.foreground"] 0x00FF00FF).workbench_rules
        = pre ++ ("editor.foreground", dsl.colorOfU32 0x00FF00FF) :: post :=
c8_workbench_reinsert
  { textmate_rules := [], semantic_rules := [],
    workbench_rules := [("editor.background", { r := 0, g := 0, b := 0, a := 255 }),
                        ("editor.foreground", { r := 255, g := 0, b := 0, a := 255 })] }
  "editor.foreground" 0x00FF00FF (by decide)

/-- C5: `Identifier` construction succeeds exactly when every character of
the input is ASCII alphanumeric or a hyphen; on success the stored text is
the input unchanged, and on failure the error message names the exact
offending input string. -/
theorem c5_identifier_validation (s : String) :
    semantic.Identifier.new s =
      (if ∀ c ∈ s.data, (semantic.isAsciiAlphanumeric c || c == '-') = true
       then Except.ok { text := s }
       else Except.error ("invalid character in ‘" ++ s ++ "’")) := by
unfold semantic.Identifier.new
rw [checkIdentifierChars_spec]
by_cases h : ∀ c ∈ s.data, (semantic.isAsciiAlphanumeric c || c == '-') = true
· rw [if_pos h, if_pos h]
· rw [if_neg h, if_neg h]

/-- C6: every semantic selector serializes to the canonical string
`<kind>(.<modifier>)*(:<language>)?`; in particular the specific selector
`variable` with modifiers `declaration`, `static` encodes to
`"variable.declaration.static"` and the wildcard selector with modifier
`mutable` encodes to `"*.mutable"`. -/
theorem c6_selector_canonical_encoding (sel : semantic.Selector) :
    semantic.Selector.serialize sel = canonicalSelectorString sel ∧
    semantic.Selector.serialize
      { kind := semantic.TokenKind.Specific { text := "variable" },
        modifiers := [{ text := "declaration" }, { text := "static" }],
        language := none } = "variable.declaration.static" ∧
    semantic.Selector.serialize
      { kind := semantic.TokenKind.Wildcard,
        modifiers := [{ text := "mutable" }],
        language := none } = "*.mutable" := by
refine ⟨?_, by decide, by decide⟩
have key : ∀ (x : String) (mods : List semantic.Identifier),
    String.intercalate "." (x :: mods.map semantic.Identifier.text)
      = mods.foldl (fun acc m => acc ++ "." ++ m.text) x := by
  intro x mods
  have h1 : String.intercalate "." (x :: mods.map semantic.Identifier.text)
      = String.intercalate.go x "." (mods.map semantic.Identifier.text) := rfl
  rw [h1, ← foldl_dot_eq_intercalate_go, List.foldl_map]
obtain ⟨kind, mods, lang⟩ := sel
cases lang with
| none =>
    simp [semantic.Selector.serialize, canonicalSelectorString, key, String.append_empty]
| some l =>
    simp [semantic.Selector.serialize, canonicalSelectorString, key, String.append_assoc]

/-- C2 counterexample: a rule-addition call with a bare bold effect records,
for the targeted semantic selector, italic and underline axes `Inherit`,
not `False` as the claim states. -/
theorem c2_counterexample :
    (dsl.ThemeBuilder.a dsl.ThemeBuilder.default
        [dsl.Selector.Semantic { kind := semantic.TokenKind.Specific { text := "variable" },
                                 modifiers := [], language := none }]
        (dsl.Style.fromFontStyle dsl.FontStyle.Bold)).semantic_rules
      = [({ kind := semantic.TokenKind.Specific { text := "variable" },
            modifiers := [], language := none },
          { foreground := none,
            font_style := { bold := semantic.FontStyleSetting.True,
                            italic := semantic.FontStyleSetting.Inherit,
                            underline := semantic.FontStyleSetting.Inherit } })] ∧
    semantic.FontStyleSetting.Inherit ≠ semantic.FontStyleSetting.False := by
exact ⟨rfl, by decide⟩

/-- C2 (amended): a bare font-style effect records, for every semantic
selector in the call, foreground absent, the chosen axis `True` and the
other two axes `Inherit`; a bare color records foreground present with all
three axes `Inherit`. -/
theorem c2_bare_style_contributions (b : dsl.ThemeBuilder) (sels : List dsl.Selector)
    (sel : semantic.Selector) (fs : dsl.FontStyle) (rgba : Nat)
    (hmem : dsl.Selector.Semantic sel ∈ sels) :
    indexMapGet (dsl.ThemeBuilder.a b sels (dsl.Style.fromFontStyle fs)).semantic_rules sel
      = some { foreground := none,
               font_style :=
                 { bold := if fs = dsl.FontStyle.Bold then semantic.FontStyleSetting.True
                           else semantic.FontStyleSetting.Inherit,
                   italic := if fs = dsl.FontStyle.Italic then semantic.FontStyleSetting.True
                             else semantic.FontStyleSetting.Inherit,
                   underline := if fs = dsl.FontStyle.Underline then semantic.FontStyleSetting.True
                                else semantic.FontStyleSetting.Inherit } } ∧
    indexMapGet (dsl.ThemeBuilder.a b sels (dsl.Style.fromU32 rgba)).semantic_rules sel
      = some { foreground := some (dsl.colorOfU32 rgba),
               font_style := { bold := semantic.FontStyleSetting.Inherit,
                               italic := semantic.FontStyleSetting.Inherit,
                               underline := semantic.FontStyleSetting.Inherit } } := by
have hsel : sel ∈ dsl.semanticSelectors sels := by
  unfold dsl.semanticSelectors
  exact List.mem_filterMap.mpr ⟨dsl.Selector.Semantic sel, hmem, rfl⟩
constructor
· have h2 : dsl.semanticStyleOfStyle (dsl.Style.fromFontStyle fs)
      = { foreground := none,
          font_style :=
            { bold := if fs = dsl.FontStyle.Bold then semantic.FontStyleSetting.True
                      else semantic.FontStyleSetting.Inherit,
              italic := if fs = dsl.FontStyle.Italic then semantic.FontStyleSetting.True
                        else semantic.FontStyleSetting.Inherit,
              underline := if fs = dsl.FontStyle.Underline then semantic.FontStyleSetting.True
                           else semantic.FontStyleSetting.Inherit } } := by
    cases fs <;> rfl
  rw [← h2]
  exact indexMapGet_foldl_insert_mem (dsl.semanticSelectors sels) b.semantic_rules sel
    (dsl.semanticStyleOfStyle (dsl.Style.fromFontStyle fs)) hsel
· exact indexMapGet_foldl_insert_mem (dsl.semanticSelectors sels) b.semantic_rules sel
    (dsl.semanticStyleOfStyle (dsl.Style.fromU32 rgba)) hsel

/-- C2 witness: the amended statement applied to a concrete call. -/
theorem c2_bare_style_contributions_witness :
    indexMapGet (dsl.ThemeBuilder.a dsl.ThemeBuilder.default
        [dsl.Selector.Semantic { kind := semantic.TokenKind.Wildcard,
                                 modifiers := [], language := none }]
        (dsl.Style.fromFontStyle dsl.FontStyle.Bold)).semantic_rules
      { kind := semantic.TokenKind.Wildcard, modifiers := [], language := none }
      = some { foreground := none,
               font_style := { bold := semantic.FontStyleSetting.True,
                               italic := semantic.FontStyleSetting.Inherit,
                               underline := semantic.FontStyleSetting.Inherit } } :=
(c2_bare_style_contributions dsl.ThemeBuilder.default
  [dsl.Selector.Semantic { kind := semantic.TokenKind.Wildcard,
                           modifiers := [], language := none }]
  { kind := semantic.TokenKind.Wildcard, modifiers := [], language := none }
  dsl.FontStyle.Bold 0xFF0000FF (by decide)).1

/-- C3 counterexample: a scope-rule settings value whose font style is
`Set` with no axis true serializes with the `fontStyle` key present (as the
empty string); the key is not omitted. -/
theorem c3_counterexample :
    textmate.RuleSettings.serialize
        { foreground := none, font_style := textmate.FontStyle.Set false false false }
      = Json.obj [("fontStyle", Json.str "")] ∧
    Json.obj [("fontStyle", Json.str "")] ≠ Json.obj [] := by
refine ⟨rfl, ?_⟩
intro h
injection h with h1
exact List.noConfusion h1

/-- C3 (amended): scope-rule settings collapse the axes that are true into
one space-joined string in the fixed order italic, bold, underline; the
`fontStyle` key is omitted exactly when the font style is `Inherit`, while
a `Set` value with no axis true emits the key with an empty string. Bold
alone gives `"bold"`; italic plus bold gives `"italic bold"`. -/
theorem c3_scope_rule_font_style (fg : Option Color) (b i u : Bool) :
    (textmate.RuleSettings.serialize { foreground := fg, font_style := textmate.FontStyle.Set b i u }
      = Json.obj (textmate.foregroundFields fg ++
          [("fontStyle", Json.str (String.intercalate " "
             ((if i then ["italic"] else []) ++ (if b then ["bold"] else []) ++
              (if u then ["underline"] else []))))])) ∧
    (textmate.RuleSettings.serialize { foreground := fg, font_style := textmate.FontStyle.Inherit }
      = Json.obj (textmate.foregroundFields fg)) ∧
    textmate.fontStyleString true false false = "bold" ∧
    textmate.fontStyleString true true false = "italic bold" := by
refine ⟨?_, rfl, rfl, rfl⟩
cases b <;> cases i <;> cases u <;> rfl

/-- C9: applying the append-modifier or set-language operation to a
selector set containing at least one TextMate selector fails with the
corresponding structural-misuse panic message; it is never silently
ignored. -/
theorem c9_textmate_selector_misuse (sels : List dsl.Selector) (scope rhs : String)
    (hmem : dsl.Selector.TextMate scope ∈ sels)
    (hvalid : semantic.Identifier.new rhs = Except.ok { text := rhs }) :
    dsl.shr sels rhs = Except.error "cannot add a modifier to TextMate selector" ∧
    dsl.bitxor sels rhs = Except.error "cannot add set language of TextMate selector" := by
induction sels with
| nil => cases hmem
| cons s rest ih =>
    cases s with
    | TextMate sc => exact ⟨rfl, rfl⟩
    | Semantic sem =>
        have hm : dsl.Selector.TextMate scope ∈ rest := by
          rcases List.mem_cons.mp hmem with h1 | h2
          · simp at h1
          · exact h2
        obtain ⟨ih1, ih2⟩ := ih hm
        constructor
        · rw [dsl.shr, hvalid, ih1]
        · rw [dsl.bitxor, hvalid, ih2]

/-- C9 witness: both operations fail on a concrete mixed selector set. -/
theorem c9_textmate_selector_misuse_witness :
    dsl.shr [dsl.Selector.Semantic { kind := semantic.TokenKind.Wildcard,
                                     modifiers := [], language := none },
             dsl.Selector.TextMate "keyword"] "mutable"
      = Except.error "cannot add a modifier to TextMate selector" ∧
    dsl.bitxor [dsl.Selector.Semantic { kind := semantic.TokenKind.Wildcard,
                                        modifiers := [], language := none },
                dsl.Selector.TextMate "keyword"] "mutable"
      = Except.error "cannot add set language of TextMate selector" :=
c9_textmate_selector_misuse _ "keyword" "mutable" (by decide) (by rfl)

/-- C10: `build` always enables semantic highlighting, so the serialized
document contains `semanticHighlighting: true` immediately followed by a
`semanticTokenColors` object; the disabled form is unreachable through the
builder. -/
theorem c10_semantic_highlighting_always_on (b : dsl.ThemeBuilder) (name : String) :
    (b.build name).semantic_highlighting = semantic.Highlighting.On b.semantic_rules ∧
    (b.build name).semantic_highlighting ≠ semantic.Highlighting.Off ∧
    Theme.toJson (b.build name) =
      Json.obj [("name", Json.str name),
        ("tokenColors", Json.arr (b.textmate_rules.map textmate.Rule.serialize)),
        ("semanticHighlighting", Json.bool true),
        ("semanticTokenColors", Json.obj (b.semantic_rules.map
          (fun p => (semantic.Selector.serialize p.1, semantic.Style.serialize p.2)))),
        ("colors", Json.obj (b.workbench_rules.map (fun p => (p.1, Color.serialize p.2))))] := by
refine ⟨rfl, ?_, rfl⟩
intro h
exact semantic.Highlighting.noConfusion h

end Mottle
